import Mathlib

set_option maxRecDepth 10000

namespace Bootstrap

/-- One entry of the byte-indexed table from `redactor.go`
(`table [255]struct { skip int; needles [][]byte }`): `skip` is the
Boyer-Moore skip distance of this byte, `needles` the search strings
that end in this byte. Bytes are modelled as `Nat` values. -/
structure TableEntry where
  skip : Nat
  needles : List (List Nat)
deriving DecidableEq

/-- The `Redactor` state from `redactor.go`. The Go array `table [255]struct{...}`
is modelled as a list of exactly 255 entries indexed by byte value, so an index
into it with byte value 255 is out of range, exactly as in the source. The
wrapped `output io.Writer` sink is kept external: `write` and `sync` return the
byte sequences that the source passes to `output.Write`. -/
structure Redactor where
  replacement : List Nat
  offset : Int
  minlen : Nat
  maxlen : Nat
  table : List TableEntry
  outbuf : List Nat
deriving DecidableEq

/-- Go slice `l[a:b]` on integer indices; used only where the source guarantees
`0 ≤ a ≤ b ≤ l.length`. -/
def sliceI (l : List Nat) (a b : Int) : List Nat :=
  (l.take b.toNat).drop a.toNat

/-- Go byte access `input[i]` for an `int` index: a negative index is a runtime
panic, modelled as `none`; within `write` it is only evaluated under the loop
guard `i < input.length`. -/
def getByte (input : List Nat) (i : Int) : Option Nat :=
  if 0 ≤ i then input[i.toNat]? else none

/-- The min/max needle-length loop at the top of `NewRedactor`:
`if len(needle) < minNeedleLen || minNeedleLen == 0 { minNeedleLen = len(needle) }`
and `if len(needle) > maxNeedleLen { maxNeedleLen = len(needle) }`. -/
def minMaxLen (needles : List (List Nat)) : Nat × Nat :=
  needles.foldl
    (fun mm nd =>
      (if nd.length < mm.1 ∨ mm.1 = 0 then nd.length else mm.1,
       if nd.length > mm.2 then nd.length else mm.2))
    (0, 0)

/-- The body of `NewRedactor`'s table loop for one byte `ch` of `needle` at
position `i`: lower `table[ch].skip` to `len(needle)-i-1` when smaller, and
register the needle as a candidate when that distance is 0. The Go store
`redactor.table[ch]` panics when `ch` is out of range of the 255-entry array,
modelled as `none`. -/
def addNeedleByte (nd : List Nat) (i : Nat) (ch : Nat) (tbl : List TableEntry) :
    Option (List TableEntry) :=
  match tbl[ch]? with
  | none => none
  | some e =>
    let sk := nd.length - i - 1
    let e1 := if sk < e.skip then { e with skip := sk } else e
    let e2 := if sk = 0 then { e1 with needles := e1.needles ++ [nd] } else e1
    some (tbl.set ch e2)

/-- Go `utf8.DecodeRuneInString` on the byte `b0` followed by `rest`: returns
the decoded rune value and its width in bytes. Follows the Go runtime's
acceptance ranges: ASCII decodes to itself with width 1; a 2-byte starter is
`0xC2..0xDF`; the second byte of a 3-byte sequence is restricted for starters
`0xE0` (no overlong) and `0xED` (no surrogates) and of a 4-byte sequence for
starters `0xF0` and `0xF4`; continuation bytes are `0x80..0xBF`. Anything
else - a stray continuation byte, `0xC0`/`0xC1`, `0xF5..0xFF`, a bad
continuation, or a truncated sequence - decodes to `RuneError` (U+FFFD,
65533) with width 1. -/
def decodeRune (b0 : Nat) (rest : List Nat) : Nat × Nat :=
  if b0 < 128 then (b0, 1)
  else if b0 < 194 then (65533, 1)
  else if b0 < 224 then
    match rest with
    | b1 :: _ =>
      if 128 ≤ b1 ∧ b1 ≤ 191 then ((b0 % 32) * 64 + b1 % 64, 2) else (65533, 1)
    | [] => (65533, 1)
  else if b0 < 240 then
    match rest with
    | b1 :: b2 :: _ =>
      if (if b0 = 224 then 160 ≤ b1 ∧ b1 ≤ 191
          else if b0 = 237 then 128 ≤ b1 ∧ b1 ≤ 159
          else 128 ≤ b1 ∧ b1 ≤ 191)
          ∧ 128 ≤ b2 ∧ b2 ≤ 191 then
        ((b0 % 16) * 4096 + (b1 % 64) * 64 + b2 % 64, 3)
      else (65533, 1)
    | _ => (65533, 1)
  else if b0 < 245 then
    match rest with
    | b1 :: b2 :: b3 :: _ =>
      if (if b0 = 240 then 144 ≤ b1 ∧ b1 ≤ 191
          else if b0 = 244 then 128 ≤ b1 ∧ b1 ≤ 143
          else 128 ≤ b1 ∧ b1 ≤ 191)
          ∧ 128 ≤ b2 ∧ b2 ≤ 191 ∧ 128 ≤ b3 ∧ b3 ≤ 191 then
        ((b0 % 8) * 262144 + (b1 % 64) * 4096 + (b2 % 64) * 64 + b3 % 64, 4)
      else (65533, 1)
    | _ => (65533, 1)
  else (65533, 1)

/-- Go `for i, ch := range needle` iteration from byte offset `i`, fuelled by
a bound on the number of steps: each step decodes one rune (possibly
`RuneError` of width 1 on invalid UTF-8) and advances by its byte width, as
the Go runtime does. Every rune consumes at least one byte, so a fuel equal
to the length of the remaining bytes is never exhausted. -/
def rangeStepsF : Nat → List Nat → Nat → List (Nat × Nat)
  | 0, _, _ => []
  | _, [], _ => []
  | fuel + 1, b0 :: rest, i =>
    (i, (decodeRune b0 rest).1) ::
      rangeStepsF fuel (rest.drop ((decodeRune b0 rest).2 - 1)) (i + (decodeRune b0 rest).2)

/-- Go `for i, ch := range needle` iteration over a string's bytes: the
yielded pairs (byte offset, rune value). -/
def rangeSteps (l : List Nat) (i : Nat) : List (Nat × Nat) :=
  rangeStepsF l.length l i

/-- The `for i, ch := range needle` loop of `NewRedactor`, applied to the
(offset, rune) steps produced by `rangeSteps`: `skip` distances are computed
from the byte offset `i`, while the table index is the rune value `ch` -
exactly the source, where a rune value of 255 or more (including `RuneError`
from invalid UTF-8) makes the table store panic. -/
def addNeedleSteps (nd : List Nat) : List (Nat × Nat) → List TableEntry → Option (List TableEntry)
  | [], tbl => some tbl
  | (i, ch) :: rest, tbl =>
    match addNeedleByte nd i ch tbl with
    | none => none
    | some tbl1 => addNeedleSteps nd rest tbl1

/-- The `for _, needle := range needles` loop of `NewRedactor`, each needle
iterated by rune as in the Go source. -/
def buildTable : List (List Nat) → List TableEntry → Option (List TableEntry)
  | [], tbl => some tbl
  | nd :: rest, tbl =>
    match addNeedleSteps nd (rangeSteps nd 0) tbl with
    | none => none
    | some tbl1 => buildTable rest tbl1

/-- `NewRedactor(output, replacement, needles)`: computes the needle length
bounds, initializes every entry of the 255-entry table with
`skip = minNeedleLen`, runs the needle loops (each needle iterated by rune,
as Go's `range` over a string does), and starts with
`offset = minNeedleLen - 1` and an empty output buffer. -/
def newRedactor (replacement : List Nat) (needles : List (List Nat)) : Option Redactor :=
  match buildTable needles (List.replicate 255 ⟨(minMaxLen needles).1, []⟩) with
  | none => none
  | some tbl =>
    some { replacement := replacement
           offset := ((minMaxLen needles).1 : Int) - 1
           minlen := (minMaxLen needles).1
           maxlen := (minMaxLen needles).2
           table := tbl
           outbuf := [] }

/-- The `for _, needle := range redactor.table[ch].needles` loop of `Write`,
entered after `cursor++`; returns the updated `(outbuf, doneTo, cursor)`.
Each candidate is reconstructed exactly as in the source: in-chunk slice when
`startSubstr >= 0`, otherwise `outbuf[-startSubstr-1:] ++ input[:cursor]` when
`-startSubstr <= len(outbuf)`, otherwise the candidate is skipped. On the
first equal candidate the source truncates `outbuf` by `startSubstr` (negative
case) or stages `input[doneTo:startSubstr]`, appends the replacement, sets
`doneTo = cursor`, advances `cursor += minlen - 1` and breaks. -/
def checkCandidates (replacement : List Nat) (minlen : Nat) (input : List Nat) (cursor : Int) :
    List (List Nat) → List Nat → Int → List Nat × Int × Int
  | [], outbuf, doneTo => (outbuf, doneTo, cursor)
  | nd :: rest, outbuf, doneTo =>
    let startSubstr : Int := cursor - nd.length
    if 0 ≤ startSubstr then
      if nd = sliceI input startSubstr cursor then
        let ob1 := if startSubstr > doneTo then outbuf ++ sliceI input doneTo startSubstr
                   else outbuf
        (ob1 ++ replacement, cursor, cursor + minlen - 1)
      else checkCandidates replacement minlen input cursor rest outbuf doneTo
    else if -startSubstr ≤ (outbuf.length : Int) then
      if nd = outbuf.drop ((-startSubstr).toNat - 1) ++ input.take cursor.toNat then
        (outbuf.take (outbuf.length - (-startSubstr).toNat) ++ replacement,
         cursor, cursor + minlen - 1)
      else checkCandidates replacement minlen input cursor rest outbuf doneTo
    else checkCandidates replacement minlen input cursor rest outbuf doneTo

/-- The main `for cursor < len(input)` scan loop of `Write`, with state
`(cursor, doneTo, outbuf)`. A byte with nonzero skip advances the cursor and
stages `input[doneTo:confirmedTo]` with
`confirmedTo = min (cursor - maxlen - 1) input.length`; a byte with zero skip
increments the cursor and runs the candidate loop. `none` models a runtime
panic: a negative cursor index into `input`, or a byte value indexing past the
255-entry table. The fuel argument strictly exceeds the number of loop
iterations of any terminating run. -/
def scanLoop (tbl : List TableEntry) (replacement : List Nat) (minlen maxlen : Nat)
    (input : List Nat) : Nat → Int → Int → List Nat → Option (Int × Int × List Nat)
  | 0, _, _, _ => none
  | fuel + 1, cursor, doneTo, outbuf =>
    if cursor < (input.length : Int) then
      match getByte input cursor with
      | none => none
      | some ch =>
        match tbl[ch]? with
        | none => none
        | some e =>
          if e.skip ≠ 0 then
            let cursor1 := cursor + (e.skip : Int)
            let confirmedTo := min (cursor1 - (maxlen : Int) - 1) (input.length : Int)
            if confirmedTo > doneTo then
              scanLoop tbl replacement minlen maxlen input fuel cursor1 confirmedTo
                (outbuf ++ sliceI input doneTo confirmedTo)
            else
              scanLoop tbl replacement minlen maxlen input fuel cursor1 doneTo outbuf
          else
            match checkCandidates replacement minlen input (cursor + 1) e.needles outbuf doneTo with
            | (ob1, d1, c1) => scanLoop tbl replacement minlen maxlen input fuel c1 d1 ob1
    else some (cursor, doneTo, outbuf)

/-- The line-terminator loop of `Write`:
`for i := doneTo; i < len(input); i++ { if input[i] == '\r' || input[i] == '\n' { ... } }`,
staging `input[doneTo:i+1]` and advancing `doneTo` on every `\r` (13) or
`\n` (10). Iterates with `rest = input.drop i`. -/
def lineLoop (input : List Nat) : List Nat → Nat → Int → List Nat → List Nat × Int
  | [], _, doneTo, outbuf => (outbuf, doneTo)
  | b :: rest, i, doneTo, outbuf =>
    if b = 13 ∨ b = 10 then
      lineLoop input rest (i + 1) ((i : Int) + 1) (outbuf ++ sliceI input doneTo ((i : Int) + 1))
    else lineLoop input rest (i + 1) doneTo outbuf

/-- `Write(input)`: runs the scan loop from the carried-over `offset` with
`doneTo = 0`, then the line-terminator loop; when `doneTo > 0` it sends the
output buffer to the sink and retains `input[doneTo:]`
(`append(outbuf[:0], input[doneTo:]...)`), otherwise it appends the whole
input to the buffer and sends nothing. Finally
`offset = cursor - len(input)`. The second component lists the payloads of
the `output.Write` calls made during this call; `none` models a runtime
panic. -/
def write (r : Redactor) (input : List Nat) : Option (Redactor × List (List Nat)) :=
  match scanLoop r.table r.replacement r.minlen r.maxlen input
      (input.length + (if r.offset < 0 then (-r.offset).toNat else 0) + 1)
      r.offset 0 r.outbuf with
  | none => none
  | some (cursor, doneTo, outbuf) =>
    match lineLoop input (input.drop doneTo.toNat) doneTo.toNat doneTo outbuf with
    | (ob1, d1) =>
      if 0 < d1 then
        some ({ r with outbuf := input.drop d1.toNat, offset := cursor - input.length },
              [ob1])
      else
        some ({ r with outbuf := ob1 ++ input, offset := cursor - input.length }, [])

/-- `Sync()` (the Flush of the spec) from the source:
`func (redactor Redactor) Sync() error` has a VALUE receiver, so it operates on
a copy of the caller's struct. `redactor.output.Write(redactor.outbuf)` sends
the retained buffer to the sink, and the subsequent
`redactor.outbuf = redactor.outbuf[:0]` reassigns only the copy's slice
header (no element of the shared backing array is written), so the
caller-visible `Redactor` is unchanged. Returns (caller-visible state after
the call, bytes passed to the sink). -/
def sync (r : Redactor) : Redactor × List Nat :=
  (r, r.outbuf)

/-- Feeds a list of chunks to a redactor with one `Write` per chunk,
accumulating the sink payloads; `none` models a panic in some call. -/
def writeAll : Redactor → List (List Nat) → List (List Nat) →
    Option (Redactor × List (List Nat))
  | r, acc, [] => some (r, acc)
  | r, acc, chunk :: rest =>
    match write r chunk with
    | none => none
    | some (r1, evs) => writeAll r1 (acc ++ evs) rest

/-- Builds a redactor, feeds the chunks with one `Write` each, then calls
`Sync` once; returns the concatenation of everything the sink received. -/
def runChunks (replacement : List Nat) (needles : List (List Nat))
    (chunks : List (List Nat)) : Option (List Nat) :=
  match newRedactor replacement needles with
  | none => none
  | some r =>
    match writeAll r [] chunks with
    | none => none
    | some (r1, evs) => some (evs.flatten ++ (sync r1).2)

/-- ASCII string to byte values (all strings used here are ASCII, where the
character codes are the UTF-8 bytes the Go code operates on). -/
def strBytes (s : String) : List Nat :=
  s.data.map Char.toNat

/-- The redactor built by `NewRedactor` for replacement `"R"` and needle set
`{"ab"}`, written out: `'a'` (97) gets skip 1, `'b'` (98) gets skip 0 with
candidate `"ab"`, every other byte the default skip 2 = minlen. -/
def rAB : Redactor :=
  { replacement := [82], offset := 1, minlen := 2, maxlen := 2,
    table := ((List.replicate 255 ⟨2, []⟩).set 97 ⟨1, []⟩).set 98 ⟨0, [[97, 98]]⟩,
    outbuf := [] }

/-- A minimal concrete redactor state used to instantiate the general `write`
theorems: table of 255 default entries with skip 1, no candidates. -/
def rW : Redactor :=
  { replacement := [], offset := 0, minlen := 1, maxlen := 1,
    table := List.replicate 255 ⟨1, []⟩, outbuf := [] }

/-- The state after `write rW [120]`: nothing is confirmed, so the chunk is
appended to the retained buffer and no sink call happens. -/
def rWres : Redactor :=
  { rW with outbuf := [120] }

/-- C1. The spec's boundary-split property fails on the code: with needles
`["hunter2", "s3cr3t"]` and replacement `"[REDACTED]"`, the input of the
spec's concrete scenario 1 split into two `Write` calls mid-"hunter2" leaves
`hunter2` unredacted (the cross-boundary candidate in `Write` reconstructs
`outbuf[-startSubstr-1:]` instead of the last `-startSubstr` bytes of the
retained tail, so the comparison fails), while the same input in a single
`Write` call redacts both needles. -/
theorem boundary_split_match_missed :
    runChunks (strBytes "[REDACTED]") [strBytes "hunter2", strBytes "s3cr3t"]
        [strBytes "password is hun", strBytes "ter2 and key is s3cr3t\n"]
      = some (strBytes "password is hunter2 and key is [REDACTED]\n")
    ∧ runChunks (strBytes "[REDACTED]") [strBytes "hunter2", strBytes "s3cr3t"]
        [strBytes "password is hunter2 and key is s3cr3t\n"]
      = some (strBytes "password is [REDACTED] and key is [REDACTED]\n")
    ∧ strBytes "password is hunter2 and key is [REDACTED]\n"
      ≠ strBytes "password is [REDACTED] and key is [REDACTED]\n" := by
  refine ⟨by decide, by decide, by decide⟩

/-- C2. Chunking invariance fails on the code: needle `"abc"`, input `"abc"`
fed as one chunk is redacted to `"R"`, but fed as `"ab"` then `"c"` passes
through unredacted, so the two chunkings produce different sink output. -/
theorem chunking_invariance_violated :
    runChunks (strBytes "R") [strBytes "abc"] [strBytes "abc"] = some (strBytes "R")
    ∧ runChunks (strBytes "R") [strBytes "abc"] [strBytes "ab", strBytes "c"]
        = some (strBytes "abc")
    ∧ strBytes "R" ≠ strBytes "abc" := by
  refine ⟨by decide, by decide, by decide⟩

/-- C3. The skip table has only 255 entries (`table [255]struct{...}`), not
256: construction with needle `"a"` succeeds, but a `Write` whose scan lands
on byte value 255 indexes past the table and panics (modelled as `none`),
contradicting the claim that every byte value has an entry and `Write`
completes without failure. -/
theorem skip_table_byte255_panics :
    (newRedactor (strBytes "R") [strBytes "a"]).isSome = true
    ∧ (newRedactor (strBytes "R") [strBytes "a"]).bind (fun r => write r [255]) = none := by
  refine ⟨by decide, by decide⟩

/-- C4. With an empty needle set, construction succeeds but sets
`offset = minNeedleLen - 1 = -1`, so the first `Write` reads `input[-1]` and
panics (modelled as `none`) instead of passing the bytes through. -/
theorem empty_needles_write_panics :
    (newRedactor (strBytes "R") []).isSome = true
    ∧ (newRedactor (strBytes "R") []).bind (fun r => write r (strBytes "hi")) = none := by
  refine ⟨by decide, by decide⟩

/-- C5. `Sync` has a value receiver, so `redactor.outbuf = redactor.outbuf[:0]`
resets only a copy and the caller's retained buffer survives: after writing
`"xa"` against needle `"ab"` (retained tail `"xa"`, no sink output yet), a
first `Sync` emits `"xa"` and a second `Sync` with no intervening `Write`
emits the same nonempty `"xa"` again instead of a zero-byte write. -/
theorem sync_reemits_retained_tail :
    ((newRedactor (strBytes "R") [strBytes "ab"]).bind (fun r0 =>
        (write r0 (strBytes "xa")).map (fun p =>
          (p.2, (sync p.1).2, (sync (sync p.1).1).2))))
      = some ([], strBytes "xa", strBytes "xa")
    ∧ strBytes "xa" ≠ [] := by
  refine ⟨by decide, by decide⟩

/-- C6, counterexample. The retained-tail bound `maxLen - 1` fails: for needle
set `{"ab"}` (`maxLen = 2`), a single `Write` of `"xxxx"` retains the last
2 bytes, and `2 ≤ maxLen - 1 = 1` is false. -/
theorem retained_tail_bound_counterexample :
    newRedactor [82] [[97, 98]] = some rAB
    ∧ (write rAB [120, 120, 120, 120]).map (fun p => (p.1.outbuf.length, p.1.maxlen))
        = some (2, 2)
    ∧ ¬ (2 ≤ 2 - 1) := by
  refine ⟨by decide, by decide, by decide⟩

/-- C7. The exact-substitution property fails on the code because of the
255-entry skip table: for needle `"a"`, `A = [0xFF]` and `B = []` (neither
contains a needle occurrence), writing `A ++ needle ++ B` panics when the scan
lands on byte 255 (modelled as `none`), so the sink never receives
`A ++ replacement ++ B`. -/
theorem exact_substitution_panics :
    (newRedactor (strBytes "R") [strBytes "a"]).isSome = true
    ∧ runChunks (strBytes "R") [strBytes "a"] [[255] ++ strBytes "a" ++ []] = none := by
  refine ⟨by decide, by decide⟩

/-- C8. Identity on clean input fails on the code: `[255, 255]` contains no
occurrence of the needle `"ab"`, yet writing it panics on the 255-entry skip
table (modelled as `none`), so the sink output is not the input. -/
theorem clean_input_identity_panics :
    (¬ strBytes "ab" <:+: [255, 255])
    ∧ runChunks (strBytes "R") [strBytes "ab"] [[255, 255]] = none := by
  refine ⟨by decide, by decide⟩

theorem getByte_nonneg {input : List Nat} {i : Int} {ch : Nat}
    (h : getByte input i = some ch) : 0 ≤ i := by
  unfold getByte at h
  split at h
  · assumption
  · exact absurd h (by simp)

/-- The candidate loop either returns its state unchanged (no candidate
matched) or sets the `doneTo` component to the cursor value it was entered
with. -/
theorem checkCandidates_cases (replacement : List Nat) (minlen : Nat) (input : List Nat)
    (cursor : Int) :
    ∀ (nds : List (List Nat)) (outbuf : List Nat) (doneTo : Int),
      checkCandidates replacement minlen input cursor nds outbuf doneTo
          = (outbuf, doneTo, cursor)
      ∨ (checkCandidates replacement minlen input cursor nds outbuf doneTo).2.1 = cursor := by
  intro nds
  induction nds with
  | nil => intro outbuf doneTo; left; rfl
  | cons nd rest ih =>
    intro outbuf doneTo
    simp only [checkCandidates]
    split
    · split
      · right; rfl
      · exact ih outbuf doneTo
    · split
      · split
        · right; rfl
        · exact ih outbuf doneTo
      · exact ih outbuf doneTo

/-- Through the scan loop, `doneTo` stays nonnegative, and a run that ends
with `doneTo ≤ 0` never confirmed anything: it entered with `doneTo ≤ 0` and
left the output buffer untouched. -/
theorem scanLoop_doneTo (tbl : List TableEntry) (replacement : List Nat) (minlen maxlen : Nat)
    (input : List Nat) :
    ∀ (fuel : Nat) (cursor doneTo : Int) (outbuf : List Nat) (res : Int × Int × List Nat),
      scanLoop tbl replacement minlen maxlen input fuel cursor doneTo outbuf = some res →
      0 ≤ doneTo →
      0 ≤ res.2.1 ∧ (res.2.1 ≤ 0 → doneTo ≤ 0 ∧ res.2.2 = outbuf) := by
  intro fuel
  induction fuel with
  | zero => intro cursor doneTo outbuf res h; exact absurd h (by simp [scanLoop])
  | succ n ih =>
    intro cursor doneTo outbuf res h hd
    rw [scanLoop] at h
    split at h
    · split at h
      · exact absurd h (by simp)
      · rename_i ch hgb
        split at h
        · exact absurd h (by simp)
        · rename_i e hte
          split at h
          · simp only [] at h
            split at h
            · rename_i hconf
              have hd2 : (0 : Int) ≤ min (cursor + (e.skip : Int) - (maxlen : Int) - 1)
                  (input.length : Int) := le_of_lt (lt_of_le_of_lt hd hconf)
              have hres := ih _ _ _ _ h hd2
              refine ⟨hres.1, fun hle => ?_⟩
              exact absurd (hres.2 hle).1 (by omega)
            · exact ih _ _ _ _ h hd
          · rename_i hskip
            split at h
            rename_i ob1 d1 c1 hcc
            rcases checkCandidates_cases replacement minlen input (cursor + 1) e.needles
                outbuf doneTo with hsame | hdset
            · rw [hcc] at hsame
              injection hsame with h1 h2
              injection h2 with h2 h3
              subst h1; subst h2
              exact ih _ _ _ _ h hd
            · rw [hcc] at hdset
              simp only at hdset
              subst hdset
              have hcpos : (0 : Int) ≤ cursor := getByte_nonneg hgb
              have hres := ih _ _ _ _ h (by omega)
              refine ⟨hres.1, fun hle => ?_⟩
              exact absurd (hres.2 hle).1 (by omega)
    · cases h
      exact ⟨hd, fun hle => ⟨hle, rfl⟩⟩

/-- Through the line-terminator loop, `doneTo` never decreases, and a run that
ends with `doneTo ≤ 0` staged nothing: `doneTo` and the output buffer are
returned unchanged. -/
theorem lineLoop_doneTo (input : List Nat) :
    ∀ (rest : List Nat) (i : Nat) (doneTo : Int) (outbuf : List Nat),
      doneTo ≤ (i : Int) →
      doneTo ≤ (lineLoop input rest i doneTo outbuf).2
      ∧ ((lineLoop input rest i doneTo outbuf).2 ≤ 0 →
          (lineLoop input rest i doneTo outbuf).2 = doneTo
          ∧ (lineLoop input rest i doneTo outbuf).1 = outbuf) := by
  intro rest
  induction rest with
  | nil => intro i doneTo outbuf hle; exact ⟨le_refl _, fun _ => ⟨rfl, rfl⟩⟩
  | cons b rest ih =>
    intro i doneTo outbuf hle
    rw [lineLoop]
    split
    · have h2 := ih (i + 1) ((i : Int) + 1)
        (outbuf ++ sliceI input doneTo ((i : Int) + 1)) (by push_cast; omega)
      refine ⟨le_trans (by omega) h2.1, fun hle0 => ?_⟩
      exact absurd hle0 (by have := h2.1; omega)
    · exact ih (i + 1) doneTo outbuf (by push_cast; omega)

/-- `Write` either makes no sink call and appends the whole chunk to the
retained buffer, or makes exactly one sink call and retains a suffix of the
chunk. -/
theorem write_cases (r : Redactor) (input : List Nat) (r1 : Redactor) (evs : List (List Nat))
    (h : write r input = some (r1, evs)) :
    (evs = [] ∧ r1.outbuf = r.outbuf ++ input)
    ∨ ∃ ob, evs = [ob] ∧ ∃ d : Int, 0 < d ∧ r1.outbuf = input.drop d.toNat := by
  rw [write] at h
  split at h
  · exact absurd h (by simp)
  · rename_i c d ob hs
    split at h
    rename_i ob1 d1 hl
    split at h
    · rename_i hd1
      injection h with hpair
      have h1 := congrArg Prod.fst hpair
      have h2 := congrArg Prod.snd hpair
      simp only at h1 h2
      right
      refine ⟨ob1, h2.symm, d1, hd1, ?_⟩
      rw [← h1]
    · rename_i hd1
      injection h with hpair
      have h1 := congrArg Prod.fst hpair
      have h2 := congrArg Prod.snd hpair
      simp only at h1 h2
      left
      have hscan := scanLoop_doneTo r.table r.replacement r.minlen r.maxlen input _ _ _ _ _
        hs (le_refl 0)
      dsimp only at hscan
      have hline := lineLoop_doneTo input (input.drop d.toNat) d.toNat d ob
        (by rw [Int.toNat_of_nonneg hscan.1])
      rw [hl] at hline
      dsimp only at hline
      have hd1le : d1 ≤ 0 := by omega
      have hob1 : ob1 = ob := (hline.2 hd1le).2
      have hdd : d ≤ 0 := by
        have := (hline.2 hd1le).1
        omega
      have hob : ob = r.outbuf := (hscan.2 hdd).2
      have hout : r1.outbuf = ob1 ++ input := by rw [← h1]
      exact ⟨h2.symm, by rw [hout, hob1, hob]⟩

/-- C6, amended. After every `Write` call the retained buffer is a suffix of
the previously retained bytes followed by the current chunk: when some byte
was confirmed during the call, the buffer is reset to a suffix of the chunk,
and when nothing was confirmed the whole chunk is appended to the buffer
(so its length is not bounded by `maxLen - 1`, see the counterexample). -/
theorem retained_tail_suffix (r : Redactor) (input : List Nat) (r1 : Redactor)
    (evs : List (List Nat)) (h : write r input = some (r1, evs)) :
    r1.outbuf <:+ r.outbuf ++ input := by
  rcases write_cases r input r1 evs h with ⟨_, hout⟩ | ⟨ob, _, d, _, hout⟩
  · rw [hout]
  · rw [hout]
    exact (List.drop_suffix d.toNat input).trans (List.suffix_append r.outbuf input)

/-- Witness for `retained_tail_suffix` at a concrete input: `write rW [120]`
confirms nothing and retains `[120]`. -/
theorem retained_tail_suffix_witness : rWres.outbuf <:+ rW.outbuf ++ [120] :=
  retained_tail_suffix rW [120] rWres [] (by decide)

/-- C10. Every `Write` call passes at most one byte sequence to the sink,
and when it passes none (nothing was confirmed during the call: `doneTo`
stayed 0), the entire chunk is appended to the internal buffer. -/
theorem write_single_sink_call (r : Redactor) (input : List Nat) (r1 : Redactor)
    (evs : List (List Nat)) (h : write r input = some (r1, evs)) :
    evs.length ≤ 1 ∧ (evs = [] → r1.outbuf = r.outbuf ++ input) := by
  rcases write_cases r input r1 evs h with ⟨hevs, hout⟩ | ⟨ob, hevs, d, _, hout⟩
  · exact ⟨by rw [hevs]; exact Nat.zero_le 1, fun _ => hout⟩
  · exact ⟨by rw [hevs]; exact le_refl 1, fun hnil => absurd (hevs ▸ hnil) (by simp)⟩

/-- Witness for `write_single_sink_call` at a concrete input: `write rW [120]`
makes no sink call and appends the chunk to the buffer. -/
theorem write_single_sink_call_witness :
    ([] : List (List Nat)).length ≤ 1
    ∧ (([] : List (List Nat)) = [] → rWres.outbuf = rW.outbuf ++ [120]) :=
  write_single_sink_call rW [120] rWres [] (by decide)

end Bootstrap
